import Mathlib

/-
Verification of the Acutis stop hook (src/scripts/stop-hook.py).

The hook reads one JSON record from stdin, walks a newline-delimited JSON
transcript, and decides whether the agent may stop.  The development below is
a shallow embedding of that script: JSON values become the inductive `Json`,
the transcript file becomes a list of `RawLine`s (each line is blank, fails
to decode, or decodes to a record), the filesystem becomes a partial map from
paths to decoded file contents, and Python code that can raise an uncaught
exception returns `Option` (with `none` for the uncaught exception).
-/

set_option maxRecDepth 4000

namespace StopHook

/-- A JSON value as produced by `json.loads`.  Numbers are modelled as
integers; no claim depends on non-integral numbers. -/
inductive Json where
  | null
  | bool (b : Bool)
  | num (n : Int)
  | str (s : String)
  | arr (items : List Json)
  | obj (fields : List (String × Json))

/-- Python dict lookup on the decoded object: `json.loads` keeps the last
occurrence of a duplicated key, so the lookup prefers later bindings. -/
def dictLookup : List (String × Json) → String → Option Json
  | [], _ => none
  | (k, v) :: rest, key =>
    match dictLookup rest key with
    | some v' => some v'
    | none => if k = key then some v else none

/-- Models `d.get(key, default)` on a decoded JSON object. -/
def jGetD (kvs : List (String × Json)) (key : String) (dflt : Json) : Json :=
  (dictLookup kvs key).getD dflt

/-- Python truthiness of a JSON value (`bool(x)`). -/
def pyTruthy : Json → Bool
  | Json.null => false
  | Json.bool b => b
  | Json.num n => n != 0
  | Json.str s => !s.isEmpty
  | Json.arr items => !items.isEmpty
  | Json.obj fields => !fields.isEmpty

/-- Does `j` equal the Python string `s`?  Models `value == "s"` where a
non-string value compares unequal. -/
def isStrEq (j : Json) (s : String) : Bool :=
  match j with
  | Json.str t => t = s
  | _ => false

/-- Does the character list `needle` occur contiguously inside `hay`?
Models Python's `needle in hay` on strings. -/
def hasSub (needle : List Char) : List Char → Bool
  | [] => needle.isEmpty
  | c :: rest => needle.isPrefixOf (c :: rest) || hasSub needle rest

/-- Models `needle in hay` for Python strings. -/
def strContains (hay needle : String) : Bool :=
  hasSub needle.toList hay.toList

/-- Models `s.lower()`; the extensions compared against are ASCII. -/
def lowerStr (s : String) : String :=
  String.mk (s.toList.map Char.toLower)

mutual

/-- Models Python `repr` on a JSON value (used through `str` on containers).
String quoting uses single quotes and does not model escape sequences; the
values whose printed form the hook inspects are plain tool names. -/
def pyRepr : Json → String
  | Json.null => "None"
  | Json.bool true => "True"
  | Json.bool false => "False"
  | Json.num n => toString n
  | Json.str s => "'" ++ s ++ "'"
  | Json.arr items => "[" ++ pyReprItems items ++ "]"
  | Json.obj fields => "\x7b" ++ pyReprFields fields ++ "\x7d"

/-- Comma-separated `repr`s of the items of a list. -/
def pyReprItems : List Json → String
  | [] => ""
  | [x] => pyRepr x
  | x :: rest => pyRepr x ++ ", " ++ pyReprItems rest

/-- Comma-separated `repr`s of the fields of a dict. -/
def pyReprFields : List (String × Json) → String
  | [] => ""
  | [(k, v)] => "'" ++ k ++ "': " ++ pyRepr v
  | (k, v) :: rest => "'" ++ k ++ "': " ++ pyRepr v ++ ", " ++ pyReprFields rest

end

/-- Models Python `str(x)`: the identity on strings, `repr`-like otherwise. -/
def pyStr : Json → String
  | Json.str s => s
  | j => pyRepr j

/-- Number of leading `'/'` characters of a path. -/
def leadSlashes : List Char → Nat
  | '/' :: rest => leadSlashes rest + 1
  | _ => 0

/-- Splits a character list on `'/'`, keeping empty components. -/
def splitSlash : List Char → List (List Char)
  | [] => [[]]
  | c :: rest =>
    let r := splitSlash rest
    if c = '/' then [] :: r
    else
      match r with
      | [] => [[c]]
      | h :: t => (c :: h) :: t

/-- Models `pathlib.PurePosixPath(s).parts`: empty and single-dot components
are dropped, a leading slash contributes a root part (exactly two leading
slashes give the special `"//"` root). -/
def pathParts (s : String) : List String :=
  let cs := s.toList
  let comps := ((splitSlash cs).filter
      (fun c => !(c.isEmpty || c == ['.']))).map (fun c => String.mk c)
  let root :=
    match leadSlashes cs with
    | 0 => []
    | 2 => [String.mk ['/', '/']]
    | _ => [String.mk ['/']]
  root ++ comps

/-- Models `pathlib.PurePosixPath(s).name`: the last part, unless the path is
empty or only a root. -/
def pathName (s : String) : String :=
  match (pathParts s).getLast? with
  | none => ""
  | some lastPart =>
    if lastPart = "/" ∨ lastPart = "//" then "" else lastPart

/-- Index of the last `'.'` in a character list, as in `str.rfind`. -/
def lastDotIndex : List Char → Option Nat
  | [] => none
  | c :: rest =>
    match lastDotIndex rest with
    | some i => some (i + 1)
    | none => if c = '.' then some 0 else none

/-- Models `pathlib.PurePosixPath(s).suffix`: the extension of the final
component from its last dot, empty when the dot is leading or trailing. -/
def pathSuffix (s : String) : String :=
  let nm := (pathName s).toList
  match lastDotIndex nm with
  | some i => if 0 < i ∧ i + 1 < nm.length then String.mk (nm.drop i) else ""
  | none => ""

/-- `SECURITY_EXTENSIONS` from the script. -/
def SECURITY_EXTENSIONS : List String :=
  [".py", ".js", ".jsx", ".ts", ".tsx", ".php",
   ".html", ".htm", ".mjs", ".cjs"]

/-- `SKIP_PATTERNS` from the script. -/
def SKIP_PATTERNS : List String :=
  ["node_modules", "__pycache__", ".git", "venv", ".venv",
   "package-lock.json", "yarn.lock", "poetry.lock"]

/-- `WRITE_TOOLS` from the script. -/
def WRITE_TOOLS : List String :=
  ["Write", "Edit", "write", "edit", "editFiles", "createFile"]

/-- `SCAN_TOOL_KEYWORD` from the script. -/
def SCAN_TOOL_KEYWORD : String := "scan_code"

/-- Models `is_security_relevant(file_path)`: recognized extension
(lower-cased) and no path part in the skip set. -/
def is_security_relevant (file_path : String) : Bool :=
  if !(SECURITY_EXTENSIONS.contains (lowerStr (pathSuffix file_path))) then
    false
  else if (pathParts file_path).any (fun part => SKIP_PATTERNS.contains part) then
    false
  else
    true

example : is_security_relevant "app.py" = true := by decide
example : is_security_relevant "src/App.TSX" = true := by decide
example : is_security_relevant "README.md" = false := by decide
example : is_security_relevant "node_modules/a/b.js" = false := by decide
example : is_security_relevant "/home/x/.venv/lib/t.py" = false := by decide
example : is_security_relevant ".gitignore" = false := by decide
example : pathSuffix "a/archive.tar.gz" = ".gz" := by decide
example : pathSuffix "file." = "" := by decide
example : pathParts "//a//b/./c/" = ["//", "a", "b", "c"] := by decide

/-- Is the value a string naming one of the `WRITE_TOOLS`?  Models
`entry.get(key) in WRITE_TOOLS`, where a missing key yields `None` and any
non-string compares unequal to every member. -/
def isWriteToolName (v : Option Json) : Bool :=
  match v with
  | some (Json.str s) => WRITE_TOOLS.contains s
  | _ => false

/-- Shared tail of both write checks: given the `tool_input` value, extract
`file_path` (falling back to `filePath`, then `""`) and test the path.
`tool_input.get` on a non-dict raises `AttributeError`, and `Path(fp)` on a
truthy non-string raises `TypeError`; both are modelled as `none`. -/
def writeCheckOn (toolInput : Json) : Option Bool :=
  match toolInput with
  | Json.obj tkvs =>
    let fp := jGetD tkvs "file_path" (jGetD tkvs "filePath" (Json.str ""))
    if pyTruthy fp then
      match fp with
      | Json.str s => some (is_security_relevant s)
      | _ => none
    else
      some false
  | _ => none

/-- First write check of `_analyze_entry`: a `tool_use` entry whose `name`
is a write tool, reading `input` (falling back to `tool_input`, then `{}`). -/
def writeCheck1 (kvs : List (String × Json)) : Option Bool :=
  if isStrEq (jGetD kvs "type" Json.null) "tool_use"
      && isWriteToolName (dictLookup kvs "name") then
    writeCheckOn (jGetD kvs "input" (jGetD kvs "tool_input" (Json.obj [])))
  else
    some false

/-- Second write check of `_analyze_entry`: an entry whose `tool_name` is a
write tool, reading `tool_input` (defaulting to `{}`). -/
def writeCheck2 (kvs : List (String × Json)) : Option Bool :=
  if isWriteToolName (dictLookup kvs "tool_name") then
    writeCheckOn (jGetD kvs "tool_input" (Json.obj []))
  else
    some false

/-- Does a content-list item carry an ALLOW?  Models
`isinstance(item, dict) and "ALLOW" in str(item.get("text", ""))`. -/
def itemHasAllow (item : Json) : Bool :=
  match item with
  | Json.obj ikvs => strContains (pyStr (jGetD ikvs "text" (Json.str ""))) "ALLOW"
  | _ => false

/-- The scan-result checks of `_analyze_entry` (both are plain `if`s and
cannot raise): a `tool_result` entry whose `name` contains the keyword with
"ALLOW" in its `content`, or an entry whose `tool_name` contains the keyword
with "ALLOW" in its `result`/`tool_result` payload. -/
def scanAllowCheck (kvs : List (String × Json)) : Bool :=
  let entryName := pyStr (jGetD kvs "name" (Json.str ""))
  let entryToolName := pyStr (jGetD kvs "tool_name" (Json.str ""))
  let fromContent :=
    if isStrEq (jGetD kvs "type" Json.null) "tool_result"
        && strContains entryName SCAN_TOOL_KEYWORD then
      match jGetD kvs "content" (Json.str "") with
      | Json.str c => strContains c "ALLOW"
      | Json.arr items => items.any itemHasAllow
      | _ => false
    else
      false
  let fromResult :=
    if strContains entryToolName SCAN_TOOL_KEYWORD then
      match jGetD kvs "result" (jGetD kvs "tool_result" (Json.str "")) with
      | Json.str r => strContains r "ALLOW"
      | Json.obj rkvs =>
        strContains (pyStr (jGetD rkvs "decision" (Json.str ""))) "ALLOW"
      | _ => false
    else
      false
  fromContent || fromResult

/-- ORs the `(has_write, has_allow)` pairs of the items of a list, applying
`f` to each; a raised exception (`none`) from any item aborts the loop. -/
def foldItems (f : Json → Option (Bool × Bool)) : List Json → Option (Bool × Bool)
  | [] => some (false, false)
  | x :: rest => do
    let p ← f x
    let q ← foldItems f rest
    some (p.1 || q.1, p.2 || q.2)

/-- Recursion step for one nested key: descend only when the value is a dict
or a list, as the `isinstance(val, (dict, list))` guard does. -/
def descend (f : Json → Option (Bool × Bool)) (v : Option Json) : Option (Bool × Bool) :=
  match v with
  | some (Json.obj kvs) => f (Json.obj kvs)
  | some (Json.arr items) => f (Json.arr items)
  | _ => some (false, false)

/-- Recursion of `_analyze_entry` into the nested keys `content`, `messages`
and `message`, in source order. -/
def nestedResults (f : Json → Option (Bool × Bool))
    (kvs : List (String × Json)) : Option (Bool × Bool) := do
  let r1 ← descend f (dictLookup kvs "content")
  let r2 ← descend f (dictLookup kvs "messages")
  let r3 ← descend f (dictLookup kvs "message")
  some (r1.1 || r2.1 || r3.1, r1.2 || r2.2 || r3.2)

/-- One level of `_analyze_entry`, with `f` standing for the recursive calls
one level deeper.  Scalars match nothing; the result pair is
`(has_write, has_allow)`. -/
def analyzeLevel (f : Json → Option (Bool × Bool)) : Json → Option (Bool × Bool)
  | Json.obj kvs => do
    let w1 ← writeCheck1 kvs
    let w2 ← writeCheck2 kvs
    let nested ← nestedResults f kvs
    some (w1 || w2 || nested.1, scanAllowCheck kvs || nested.2)
  | Json.arr items => foldItems f items
  | _ => some (false, false)

/-- `_analyze_entry` by remaining depth budget: budget `b` corresponds to
`_depth = 11 - b`, so budget `0` is the source guard `_depth > 10`, which
returns `(False, False)` without touching the entry.  Recursive calls pass
`_depth + 1`, i.e. budget `b - 1`. -/
def analyzeEntryB : Nat → Json → Option (Bool × Bool)
  | 0, _ => some (false, false)
  | b + 1, e => analyzeLevel (analyzeEntryB b) e

/-- Models `_analyze_entry(entry, _depth)`.  Totality of this definition is
the termination guarantee for the recursive classifier. -/
def _analyze_entry (entry : Json) (depth : Nat) : Option (Bool × Bool) :=
  analyzeEntryB (11 - depth) entry

/-- A qualifying write record: `tool_use` with tool `Write` on `app.py`. -/
def sampleWrite : Json :=
  Json.obj [("type", Json.str "tool_use"), ("name", Json.str "Write"),
            ("input", Json.obj [("file_path", Json.str "app.py")])]

/-- A qualifying verification record: a `tool_result` for the namespaced
scan tool whose content carries "ALLOW". -/
def sampleAllow : Json :=
  Json.obj [("type", Json.str "tool_result"),
            ("name", Json.str "mcp__acutis__scan_code"),
            ("content", Json.str "Verdict: ALLOW")]

example : _analyze_entry sampleWrite 0 = some (true, false) := by decide
example : _analyze_entry sampleAllow 0 = some (false, true) := by decide
example : _analyze_entry (Json.obj [("message",
    Json.obj [("content", Json.arr [sampleWrite, sampleAllow])])]) 0
    = some (true, true) := by decide
example : _analyze_entry (Json.obj [("type", Json.str "tool_use"),
    ("name", Json.str "Edit"), ("input", Json.str "oops")]) 0 = none := by decide

/-- One physical line of the transcript file, seen through the loop body of
`analyze_transcript`: blank after `strip()`, a `json.loads` failure, or a
decoded record. -/
inductive RawLine where
  | blank
  | malformed
  | entry (record : Json)

/-- The records of the lines that decode, in order. -/
def decodedEntries : List RawLine → List Json
  | [] => []
  | RawLine.blank :: rest => decodedEntries rest
  | RawLine.malformed :: rest => decodedEntries rest
  | RawLine.entry j :: rest => j :: decodedEntries rest

/-- The scan loop of `analyze_transcript`: threads
`(last_security_write_idx, last_scan_allow_idx, idx)` through the lines.
Blank and undecodable lines are skipped without consuming an index; an
uncaught exception from `_analyze_entry` (not in the `except` clause)
aborts the whole call (`none`). -/
def analyzeLines : List RawLine → Int → Int → Int → Option (Int × Int × Int)
  | [], lw, la, idx => some (lw, la, idx)
  | RawLine.blank :: rest, lw, la, idx => analyzeLines rest lw la idx
  | RawLine.malformed :: rest, lw, la, idx => analyzeLines rest lw la idx
  | RawLine.entry j :: rest, lw, la, idx => do
    let r ← _analyze_entry j 0
    analyzeLines rest (if r.1 then idx else lw) (if r.2 then idx else la) (idx + 1)

/-- The tail of `analyze_transcript` on a readable file: run the scan from
`(-1, -1, 0)` and return `(has_unverified_writes, has_security_writes)`. -/
def walkContent (ls : List RawLine) : Option (Bool × Bool) :=
  (analyzeLines ls (-1) (-1) 0).map fun s => (decide (s.2.1 < s.1), decide (0 ≤ s.1))

/-- Models `analyze_transcript(transcript_path)`.  The path argument is the
raw value taken from the hook input; `fs` maps each path that names an
existing regular file to its decoded lines.  A falsy path or a missing file
short-circuits to `(False, False)`; `os.path.isfile` on a truthy non-string
is modelled as a raised exception (ints would be probed as file
descriptors; no claim reaches either case). -/
def analyze_transcript (transcript_path : Json)
    (fs : String → Option (List RawLine)) : Option (Bool × Bool) :=
  if !pyTruthy transcript_path then some (false, false)
  else
    match transcript_path with
    | Json.str s =>
      match fs s with
      | none => some (false, false)
      | some ls => walkContent ls
    | _ => none

/-- The stdin contents of one invocation, seen through `read_hook_input`:
blank after `strip()`, input that raises `JSONDecodeError`/`IOError`, or
input that parses to a JSON value. -/
inductive Stdin where
  | blank
  | invalid
  | value (j : Json)

/-- Models `read_hook_input()`: blank or unparsable input degrades to `{}`;
otherwise the parsed value is returned as-is (even when it is not a dict). -/
def read_hook_input : Stdin → Json
  | Stdin.blank => Json.obj []
  | Stdin.invalid => Json.obj []
  | Stdin.value j => j

/-- Models Python `needle in j` for a string needle: key lookup on a dict,
element equality on a list, substring on a string, `TypeError` otherwise. -/
def pyInKey (needle : String) (j : Json) : Option Bool :=
  match j with
  | Json.obj kvs => some (kvs.any fun kv => kv.1 = needle)
  | Json.arr items => some (items.any fun x => isStrEq x needle)
  | Json.str s => some (strContains s needle)
  | _ => none

/-- The two host environments. -/
inductive Env where
  | claude
  | cursor

/-- Models `detect_environment(hook_input)`; the `in` tests raise on
non-container input. -/
def detect_environment (hook_input : Json) : Option Env := do
  let b1 ← pyInKey "hook_event_name" hook_input
  if b1 then some Env.cursor
  else do
    let b2 ← pyInKey "cursor_version" hook_input
    some (if b2 then Env.cursor else Env.claude)

/-- Models `hook_input.get(key, default)` in `main`: `AttributeError` on a
non-dict receiver. -/
def pyGet (j : Json) (key : String) (dflt : Json) : Option Json :=
  match j with
  | Json.obj kvs => some (jGetD kvs key dflt)
  | _ => none

/-- Models `value >= n` for the loop counter: Python ints and bools compare
against an int; any other type raises `TypeError`. -/
def pyGeInt (j : Json) (n : Int) : Option Bool :=
  match j with
  | Json.num m => some (n ≤ m)
  | Json.bool b => some (n ≤ if b then (1 : Int) else 0)
  | _ => none

/-- The block message from `main`. -/
def blockMessage : String :=
  "Security-relevant code was written but not yet verified. " ++
  "Call mcp__acutis__scan_code with the code and a PCST contract. " ++
  "Fix any BLOCK results before completing."

/-- The response object written to stdout when blocking. -/
def responseFor : Env → Json
  | Env.cursor => Json.obj [("followup_message", Json.str blockMessage)]
  | Env.claude => Json.obj [("decision", Json.str "block"),
                            ("reason", Json.str blockMessage)]

/-- Observable outcome of one run of `main`: `allow` is `sys.exit(0)` with
nothing written to stdout, `block out` writes `out` and exits 0. -/
inductive HookResult where
  | allow
  | block (out : Json)

/-- Did the run end in a block? -/
def blocksB : Option HookResult → Bool
  | some (HookResult.block _) => true
  | _ => false

/-- Models `main()`: read stdin, detect the environment, apply the loop
guard, walk the transcript, and emit the decision.  `none` is an uncaught
exception (the process dies with a traceback instead of exiting 0). -/
def main (stdin : Stdin) (fs : String → Option (List RawLine)) : Option HookResult := do
  let hook_input := read_hook_input stdin
  let env ← detect_environment hook_input
  let sha ← pyGet hook_input "stop_hook_active" (Json.bool false)
  if pyTruthy sha then some HookResult.allow
  else do
    let lc ← pyGet hook_input "loop_count" (Json.num 0)
    let lcGe ← pyGeInt lc 3
    if lcGe then some HookResult.allow
    else do
      let tp ← pyGet hook_input "transcript_path" (Json.str "")
      let r ← analyze_transcript tp fs
      if !r.2 || !r.1 then some HookResult.allow
      else some (HookResult.block (responseFor env))

/-- A one-file filesystem holding a blockable transcript at path `"t"`. -/
def fsBlockable : String → Option (List RawLine) :=
  fun p => if p = "t" then some [RawLine.entry sampleWrite] else none

example : blocksB (main (Stdin.value (Json.obj
    [("transcript_path", Json.str "t")])) fsBlockable) = true := by decide
example : main (Stdin.value (Json.obj
    [("transcript_path", Json.str "t"), ("stop_hook_active", Json.bool true)]))
    fsBlockable = some HookResult.allow := by rfl
example : main Stdin.blank fsBlockable = some HookResult.allow := by rfl
example : main (Stdin.value (Json.num 5)) fsBlockable = none := by rfl
example : walkContent [RawLine.entry sampleAllow, RawLine.blank,
    RawLine.entry sampleWrite] = some (true, true) := by decide
example : walkContent [RawLine.entry sampleWrite, RawLine.malformed,
    RawLine.entry sampleAllow] = some (false, true) := by decide

/-- C5: `is_security_relevant` holds exactly when the path's lower-cased
extension is one of the recognized source-code extensions and no path
segment is one of the excluded directory or lockfile names. -/
theorem is_security_relevant_iff (p : String) :
    is_security_relevant p = true ↔
      lowerStr (pathSuffix p) ∈ SECURITY_EXTENSIONS ∧
      ∀ seg ∈ pathParts p, seg ∉ SKIP_PATTERNS := by
  unfold is_security_relevant
  rcases h1 : SECURITY_EXTENSIONS.contains (lowerStr (pathSuffix p)) with _ | _
  · simp only [h1, Bool.not_false, if_true]
    simp only [List.contains, List.elem_eq_mem, decide_eq_false_iff_not] at h1
    simp [h1]
  · simp only [h1, Bool.not_true, if_false]
    simp only [List.contains, List.elem_eq_mem, decide_eq_true_eq] at h1
    rcases h2 : (pathParts p).any (fun part => SKIP_PATTERNS.contains part) with _ | _
    · have h2p : ∀ seg ∈ pathParts p, seg ∉ SKIP_PATTERNS := by
        intro seg hseg
        have hf := List.any_eq_false.mp h2 seg hseg
        simpa [List.contains, List.elem_eq_mem] using hf
      simp [h2, h1]
      exact h2p
    · have h2p : ∃ seg ∈ pathParts p, seg ∈ SKIP_PATTERNS := by
        simpa [List.any_eq_true, List.contains, List.elem_eq_mem] using h2
      obtain ⟨seg, hseg, hmem⟩ := h2p
      constructor
      · intro hcon
        simp at hcon
      · rintro ⟨-, hall⟩
        exact absurd hmem (hall seg hseg)

/-- A record nested `k` levels deep under `content` keys. -/
def nestContent : Nat → Json → Json
  | 0, j => j
  | k + 1, j => Json.obj [("content", nestContent k j)]

/-- With at most `b` budget left, a record wrapped at least `b` levels deep
contributes nothing. -/
theorem analyzeEntryB_nest (j : Json) :
    ∀ b k, b ≤ k → analyzeEntryB b (nestContent k j) = some (false, false) := by
  intro b
  induction b with
  | zero => intro k _; rfl
  | succ b ih =>
    intro k hk
    match k, hk with
    | k' + 1, hk =>
      have hb : b ≤ k' := Nat.le_of_succ_le_succ hk
      have hdesc : descend (analyzeEntryB b) (some (nestContent k' j))
          = some (false, false) := by
        cases k' with
        | zero =>
          have hb0 : b = 0 := Nat.le_zero.mp hb
          subst hb0
          cases j <;> rfl
        | succ k'' =>
          have hrec := ih (k'' + 1) hb
          simpa [nestContent, descend] using hrec
      show analyzeLevel (analyzeEntryB b) (Json.obj [("content", nestContent k' j)])
          = some (false, false)
      have hw1 : writeCheck1 [("content", nestContent k' j)] = some false := rfl
      have hw2 : writeCheck2 [("content", nestContent k' j)] = some false := rfl
      have hsc : scanAllowCheck [("content", nestContent k' j)] = false := rfl
      have hlk : dictLookup [("content", nestContent k' j)] "content"
          = some (nestContent k' j) := rfl
      have hlk2 : dictLookup [("content", nestContent k' j)] "messages" = none := rfl
      have hlk3 : dictLookup [("content", nestContent k' j)] "message" = none := rfl
      have hdn : descend (analyzeEntryB b) none = some (false, false) := rfl
      simp [analyzeLevel, hw1, hw2, hsc, nestedResults, hlk, hlk2, hlk3,
            hdesc, hdn]

/-- C6: the recursive classifier is total (it is a Lean function), and any
record analyzed past the depth ceiling of 10 — in particular any subtree
handed to the recursion at such a depth — contributes no write match and no
verification match; wrapping any record 11 `content`-levels deep likewise
yields no match at the top level. -/
theorem depth_ceiling_no_match :
    (∀ (e : Json) (d : Nat), 10 < d → _analyze_entry e d = some (false, false)) ∧
    (∀ j : Json, _analyze_entry (nestContent 11 j) 0 = some (false, false)) := by
  constructor
  · intro e d hd
    have : 11 - d = 0 := by omega
    simp [_analyze_entry, this, analyzeEntryB]
  · intro j
    exact analyzeEntryB_nest j 11 11 (Nat.le_refl 11)

/-- Witness for C6 at depth 11 on a concrete record that would match at
depth 0. -/
theorem depth_ceiling_no_match_witness :
    10 < 11 ∧ _analyze_entry sampleWrite 11 = some (false, false) :=
  ⟨by decide, depth_ceiling_no_match.1 sampleWrite 11 (by decide)⟩

/-- Scanning a concatenation threads the accumulated state through. -/
theorem analyzeLines_append (xs ys : List RawLine) :
    ∀ lw la idx, analyzeLines (xs ++ ys) lw la idx
      = (analyzeLines xs lw la idx).bind fun s => analyzeLines ys s.1 s.2.1 s.2.2 := by
  induction xs with
  | nil => intro lw la idx; rfl
  | cons x rest ih =>
    intro lw la idx
    cases x with
    | blank => simpa [analyzeLines] using ih lw la idx
    | malformed => simpa [analyzeLines] using ih lw la idx
    | entry j =>
      cases h : _analyze_entry j 0 with
      | none => simp [analyzeLines, h]
      | some r => simp [analyzeLines, h, ih]

/-- As long as the last-allow index stays below the running index, the scan
never moves it down, and it stays below the final index. -/
theorem analyzeLines_allow_bounds (ls : List RawLine) :
    ∀ lw la idx lw' la' idx', la < idx →
      analyzeLines ls lw la idx = some (lw', la', idx') →
      idx ≤ idx' ∧ la ≤ la' ∧ la' < idx' := by
  induction ls with
  | nil =>
    intro lw la idx lw' la' idx' hlt h
    simp only [analyzeLines, Option.some.injEq, Prod.mk.injEq] at h
    obtain ⟨h1, h2, h3⟩ := h
    subst h1; subst h2; subst h3
    exact ⟨le_refl _, le_refl _, hlt⟩
  | cons x rest ih =>
    intro lw la idx lw' la' idx' hlt h
    cases x with
    | blank => exact ih lw la idx lw' la' idx' hlt h
    | malformed => exact ih lw la idx lw' la' idx' hlt h
    | entry j =>
      cases hj : _analyze_entry j 0 with
      | none => simp [analyzeLines, hj] at h
      | some r =>
        simp only [analyzeLines, hj, Option.bind_some] at h
        have hlt' : (if r.2 then idx else la) < idx + 1 := by
          split <;> omega
        obtain ⟨hi, hl, hu⟩ := ih _ _ _ _ _ _ hlt' h
        refine ⟨by omega, ?_, hu⟩
        by_cases hr : r.2 = true
        · simp only [hr, if_true] at hl
          omega
        · simp only [Bool.not_eq_true] at hr
          simpa [hr] using hl

/-- Scanning only qualifying-write entries moves the last-write index to the
final position and leaves the last-allow index untouched. -/
theorem analyzeLines_writes (js : List Json)
    (hjs : ∀ j ∈ js, _analyze_entry j 0 = some (true, false)) :
    ∀ lw la idx, analyzeLines (js.map RawLine.entry) lw la idx
      = some ((if js.isEmpty then lw else idx + js.length - 1), la, idx + js.length) := by
  induction js with
  | nil => intro lw la idx; simp [analyzeLines]
  | cons j rest ih =>
    intro lw la idx
    have hj : _analyze_entry j 0 = some (true, false) := hjs j (List.mem_cons_self j rest)
    have hrest : ∀ j' ∈ rest, _analyze_entry j' 0 = some (true, false) :=
      fun j' hj' => hjs j' (List.mem_cons_of_mem j hj')
    simp only [List.map_cons, analyzeLines, hj, Option.bind_some, ih hrest]
    rcases rest with _ | ⟨r, rs⟩
    · simp
    · simp only [List.isEmpty_cons, List.length_cons, Option.bind_eq_bind,
                 Option.some_bind, Bool.false_eq_true, if_false,
                 Option.some.injEq, Prod.mk.injEq]
      exact ⟨by push_cast; omega, trivial, by push_cast; omega⟩

/-- Dropping blank and undecodable lines does not change the scan. -/
theorem analyzeLines_skip_eq (ls : List RawLine) :
    ∀ lw la idx, analyzeLines ls lw la idx
      = analyzeLines ((decodedEntries ls).map RawLine.entry) lw la idx := by
  induction ls with
  | nil => intro lw la idx; rfl
  | cons x rest ih =>
    intro lw la idx
    cases x with
    | blank => simpa [analyzeLines, decodedEntries] using ih lw la idx
    | malformed => simpa [analyzeLines, decodedEntries] using ih lw la idx
    | entry j =>
      cases hj : _analyze_entry j 0 with
      | none => simp [analyzeLines, decodedEntries, hj]
      | some r => simp [analyzeLines, decodedEntries, hj, ih]

/-- On success, the final index is the start index plus the number of lines
that decoded. -/
theorem analyzeLines_final_idx (ls : List RawLine) :
    ∀ lw la idx s, analyzeLines ls lw la idx = some s →
      s.2.2 = idx + (decodedEntries ls).length := by
  induction ls with
  | nil =>
    intro lw la idx s h
    simp only [analyzeLines, Option.some.injEq] at h
    subst h
    simp [decodedEntries]
  | cons x rest ih =>
    intro lw la idx s h
    cases x with
    | blank =>
      simpa [decodedEntries] using ih lw la idx s h
    | malformed =>
      simpa [decodedEntries] using ih lw la idx s h
    | entry j =>
      cases hj : _analyze_entry j 0 with
      | none => simp [analyzeLines, hj] at h
      | some r =>
        simp only [analyzeLines, hj, Option.bind_eq_bind, Option.some_bind] at h
        have := ih _ _ _ _ h
        simp only [decodedEntries, List.length_cons]
        push_cast
        omega

/-- C8: positions are dense over successfully decoded records only — the
scan of a transcript equals the scan of just its decoded records, so blank
and undecodable lines consume no index, and on success the final index
equals the start index plus the number of decoded records, making the
assigned positions the zero-based sequence over decoded records. -/
theorem positions_dense_over_decoded (ls : List RawLine) (lw la idx : Int) :
    analyzeLines ls lw la idx
      = analyzeLines ((decodedEntries ls).map RawLine.entry) lw la idx ∧
    ∀ s, analyzeLines ls lw la idx = some s →
      s.2.2 = idx + (decodedEntries ls).length :=
  ⟨analyzeLines_skip_eq ls lw la idx, fun s h => analyzeLines_final_idx ls lw la idx s h⟩

/-- Witness for C8: a transcript interleaving blanks and a bad line with two
records scans like the two records alone, ending at index 2. -/
theorem positions_dense_over_decoded_witness :
    analyzeLines [RawLine.blank, RawLine.entry sampleWrite, RawLine.malformed,
        RawLine.entry sampleAllow] (-1) (-1) 0 = some (0, 1, 2) ∧
    ((0 : Int), (1 : Int), (2 : Int)).2.2
      = 0 + (decodedEntries [RawLine.blank, RawLine.entry sampleWrite,
          RawLine.malformed, RawLine.entry sampleAllow]).length :=
  ⟨by decide,
   (positions_dense_over_decoded [RawLine.blank, RawLine.entry sampleWrite,
      RawLine.malformed, RawLine.entry sampleAllow] (-1) (-1) 0).2
     ((0 : Int), (1 : Int), (2 : Int)) (by decide)⟩

/-- C10: whenever the walker reports an unverified write, it also reports
that some security-relevant write was observed, so the separate
`has_security_writes` test in the decision step can never be the deciding
conjunct. -/
theorem unverified_implies_security_writes (ls : List RawLine) (hu hs : Bool)
    (h : walkContent ls = some (hu, hs)) (htrue : hu = true) : hs = true := by
  unfold walkContent at h
  cases hscan : analyzeLines ls (-1) (-1) 0 with
  | none => rw [hscan] at h; simp at h
  | some s =>
    rw [hscan] at h
    simp only [Option.map_some', Option.some.injEq, Prod.mk.injEq] at h
    obtain ⟨h1, h2⟩ := h
    obtain ⟨-, hla, -⟩ :=
      analyzeLines_allow_bounds ls (-1) (-1) 0 s.1 s.2.1 s.2.2 (by omega)
        (by rw [hscan])
    subst htrue
    have hlt : s.2.1 < s.1 := by
      have := h1.symm
      simpa using this
    rw [← h2]
    simp
    omega

/-- Witness for C10 on a one-write transcript. -/
theorem unverified_implies_security_writes_witness :
    walkContent [RawLine.entry sampleWrite] = some (true, true) ∧ true = true :=
  ⟨by decide,
   unverified_implies_security_writes [RawLine.entry sampleWrite] true true
     (by decide) rfl⟩

/-- C7: appending only qualifying-write records (records the classifier
reports as a write and not a verification success) never changes the
walker's `has_unverified_writes` from true to false; with the output a
boolean this is exactly "only false to true". -/
theorem appending_writes_monotone (ls : List RawLine) (js : List Json)
    (hu1 hs1 hu2 hs2 : Bool)
    (h1 : walkContent ls = some (hu1, hs1))
    (hjs : ∀ j ∈ js, _analyze_entry j 0 = some (true, false))
    (h2 : walkContent (ls ++ js.map RawLine.entry) = some (hu2, hs2))
    (htrue : hu1 = true) : hu2 = true := by
  unfold walkContent at h1 h2
  cases hscan : analyzeLines ls (-1) (-1) 0 with
  | none => rw [hscan] at h1; simp at h1
  | some s =>
    rw [hscan] at h1
    simp only [Option.map_some', Option.some.injEq, Prod.mk.injEq] at h1
    obtain ⟨h1u, -⟩ := h1
    subst htrue
    have hlt : s.2.1 < s.1 := by
      have := h1u.symm
      simpa using this
    obtain ⟨hidx, -, hla⟩ :=
      analyzeLines_allow_bounds ls (-1) (-1) 0 s.1 s.2.1 s.2.2 (by omega)
        (by rw [hscan])
    rw [analyzeLines_append ls (js.map RawLine.entry) (-1) (-1) 0, hscan] at h2
    simp only [Option.bind_eq_bind, Option.some_bind] at h2
    rw [analyzeLines_writes js hjs s.1 s.2.1 s.2.2] at h2
    simp only [Option.map_some', Option.some.injEq, Prod.mk.injEq] at h2
    obtain ⟨h2u, -⟩ := h2
    rw [← h2u]
    rcases js with _ | ⟨j0, js0⟩
    · simp
      omega
    · simp only [List.isEmpty_cons, Bool.false_eq_true, if_false, List.length_cons]
      simp
      omega

/-- Witness for C7: a verified-then-written transcript stays unverified
after appending one more qualifying write. -/
theorem appending_writes_monotone_witness :
    walkContent [RawLine.entry sampleAllow, RawLine.entry sampleWrite]
      = some (true, true) ∧
    (∀ j ∈ [sampleWrite], _analyze_entry j 0 = some (true, false)) ∧
    walkContent ([RawLine.entry sampleAllow, RawLine.entry sampleWrite]
      ++ [sampleWrite].map RawLine.entry) = some (true, true) ∧
    true = true :=
  ⟨by decide, by decide, by decide,
   appending_writes_monotone [RawLine.entry sampleAllow, RawLine.entry sampleWrite]
     [sampleWrite] true true true true (by decide) (by decide) (by decide) rfl⟩

/-- On a dict input, environment detection never raises. -/
theorem detect_environment_obj (kvs : List (String × Json)) :
    ∃ env, detect_environment (Json.obj kvs) = some env := by
  cases h1 : kvs.any (fun kv => kv.1 = "hook_event_name") with
  | true =>
    exact ⟨Env.cursor, by simp [detect_environment, pyInKey, h1]⟩
  | false =>
    cases h2 : kvs.any (fun kv => kv.1 = "cursor_version") with
    | true => exact ⟨Env.cursor, by simp [detect_environment, pyInKey, h1, h2]⟩
    | false => exact ⟨Env.claude, by simp [detect_environment, pyInKey, h1, h2]⟩

/-- C1: with the loop guard passing and a readable transcript, the walker
reports `has_unverified_writes = (last_write_idx > last_allow_idx)` (both
indices starting from the unset value −1), and the hook blocks exactly when
a security-relevant write was observed and its position is strictly greater
than the last verification-success position. -/
theorem block_iff_last_write_after_last_allow
    (kvs : List (String × Json)) (fs : String → Option (List RawLine))
    (s : String) (ls : List RawLine) (lw la n : Int)
    (hguard1 : pyTruthy (jGetD kvs "stop_hook_active" (Json.bool false)) = false)
    (hguard2 : pyGeInt (jGetD kvs "loop_count" (Json.num 0)) 3 = some false)
    (hpath : jGetD kvs "transcript_path" (Json.str "") = Json.str s)
    (hne : s.isEmpty = false)
    (hfile : fs s = some ls)
    (hscan : analyzeLines ls (-1) (-1) 0 = some (lw, la, n)) :
    walkContent ls = some (decide (la < lw), decide (0 ≤ lw)) ∧
    (blocksB (main (Stdin.value (Json.obj kvs)) fs) = true ↔ 0 ≤ lw ∧ la < lw) := by
  have hwalk : walkContent ls = some (decide (la < lw), decide (0 ≤ lw)) := by
    unfold walkContent
    rw [hscan]
    rfl
  refine ⟨hwalk, ?_⟩
  obtain ⟨env, hdet⟩ := detect_environment_obj kvs
  have hat : analyze_transcript (Json.str s) fs
      = some (decide (la < lw), decide (0 ≤ lw)) := by
    unfold analyze_transcript
    simp [pyTruthy, hne, hfile, hwalk]
  have hmain : main (Stdin.value (Json.obj kvs)) fs
      = if !(decide (0 ≤ lw)) || !(decide (la < lw)) then some HookResult.allow
        else some (HookResult.block (responseFor env)) := by
    unfold main
    simp only [read_hook_input]
    rw [hdet]
    simp only [Option.bind_eq_bind, Option.some_bind, pyGet, hguard1, hpath, hguard2,
               hat, Bool.false_eq_true, if_false]
  rw [hmain]
  by_cases h0 : 0 ≤ lw <;> by_cases hl : la < lw <;>
    simp [h0, hl, blocksB]

/-- Witness for C1 on a one-write transcript: the hook blocks, and the
last-write index 0 exceeds the unset last-allow index −1. -/
theorem block_iff_last_write_after_last_allow_witness :
    pyTruthy (jGetD [("transcript_path", Json.str "t")] "stop_hook_active"
      (Json.bool false)) = false ∧
    pyGeInt (jGetD [("transcript_path", Json.str "t")] "loop_count"
      (Json.num 0)) 3 = some false ∧
    jGetD [("transcript_path", Json.str "t")] "transcript_path"
      (Json.str "") = Json.str "t" ∧
    String.isEmpty "t" = false ∧
    fsBlockable "t" = some [RawLine.entry sampleWrite] ∧
    analyzeLines [RawLine.entry sampleWrite] (-1) (-1) 0 = some (0, -1, 1) ∧
    (blocksB (main (Stdin.value (Json.obj [("transcript_path", Json.str "t")]))
        fsBlockable) = true ↔ 0 ≤ (0 : Int) ∧ (-1 : Int) < 0) :=
  ⟨by decide, by decide, rfl, by decide, rfl, by decide,
   (block_iff_last_write_after_last_allow [("transcript_path", Json.str "t")]
      fsBlockable "t" [RawLine.entry sampleWrite] 0 (-1) 1
      (by decide) (by decide) rfl (by decide) rfl (by decide)).2⟩

/-- C9: an empty transcript path, or one that names no existing regular
file, makes the walker return `(False, False)` and the hook allow; `allow`
is by construction the outcome that writes nothing to stdout. -/
theorem missing_transcript_allows
    (kvs : List (String × Json)) (fs : String → Option (List RawLine)) (s : String)
    (hpath : jGetD kvs "transcript_path" (Json.str "") = Json.str s)
    (hguard2 : ∃ b, pyGeInt (jGetD kvs "loop_count" (Json.num 0)) 3 = some b)
    (hmiss : s = "" ∨ fs s = none) :
    analyze_transcript (Json.str s) fs = some (false, false) ∧
    main (Stdin.value (Json.obj kvs)) fs = some HookResult.allow := by
  have hat : analyze_transcript (Json.str s) fs = some (false, false) := by
    rcases hmiss with h | h
    · subst h
      rfl
    · unfold analyze_transcript
      cases he : pyTruthy (Json.str s) with
      | false => simp [he]
      | true => simp [he, h]
  refine ⟨hat, ?_⟩
  obtain ⟨env, hdet⟩ := detect_environment_obj kvs
  obtain ⟨b, hb⟩ := hguard2
  cases hsha : pyTruthy (jGetD kvs "stop_hook_active" (Json.bool false)) with
  | true =>
    unfold main
    simp only [read_hook_input]
    rw [hdet]
    simp [Option.bind_eq_bind, Option.some_bind, pyGet, hsha]
  | false =>
    cases b with
    | true =>
      unfold main
      simp only [read_hook_input]
      rw [hdet]
      simp [Option.bind_eq_bind, Option.some_bind, pyGet, hsha, hb]
    | false =>
      unfold main
      simp only [read_hook_input]
      rw [hdet]
      simp [Option.bind_eq_bind, Option.some_bind, pyGet, hsha, hb, hpath, hat]

/-- Witness for C9 with an empty path and an empty filesystem. -/
theorem missing_transcript_allows_witness :
    jGetD [("transcript_path", Json.str "")] "transcript_path"
      (Json.str "") = Json.str "" ∧
    (∃ b, pyGeInt (jGetD [("transcript_path", Json.str "")] "loop_count"
      (Json.num 0)) 3 = some b) ∧
    ("" = "" ∨ (fun _ : String => (none : Option (List RawLine))) "" = none) ∧
    analyze_transcript (Json.str "") (fun _ => none) = some (false, false) ∧
    main (Stdin.value (Json.obj [("transcript_path", Json.str "")]))
      (fun _ => none) = some HookResult.allow :=
  ⟨rfl, ⟨false, by decide⟩, Or.inl rfl,
   (missing_transcript_allows [("transcript_path", Json.str "")] (fun _ => none) ""
      rfl ⟨false, by decide⟩ (Or.inl rfl)).1,
   (missing_transcript_allows [("transcript_path", Json.str "")] (fun _ => none) ""
      rfl ⟨false, by decide⟩ (Or.inl rfl)).2⟩

/-- C4: a truthy reentry flag, or a numeric loop counter at or above 3,
makes the hook allow for every filesystem — hence regardless of transcript
contents, before any transcript work. -/
theorem loop_guard_allows_unconditionally
    (kvs : List (String × Json)) (fs : String → Option (List RawLine))
    (h : pyTruthy (jGetD kvs "stop_hook_active" (Json.bool false)) = true ∨
         ∃ n : Int, dictLookup kvs "loop_count" = some (Json.num n) ∧ 3 ≤ n) :
    main (Stdin.value (Json.obj kvs)) fs = some HookResult.allow := by
  obtain ⟨env, hdet⟩ := detect_environment_obj kvs
  rcases h with h | ⟨n, hn, h3⟩
  · unfold main
    simp only [read_hook_input]
    rw [hdet]
    simp [Option.bind_eq_bind, Option.some_bind, pyGet, h]
  · cases hsha : pyTruthy (jGetD kvs "stop_hook_active" (Json.bool false)) with
    | true =>
      unfold main
      simp only [read_hook_input]
      rw [hdet]
      simp [Option.bind_eq_bind, Option.some_bind, pyGet, hsha]
    | false =>
      have hge : pyGeInt (jGetD kvs "loop_count" (Json.num 0)) 3 = some true := by
        simp [jGetD, hn, pyGeInt, h3]
      unfold main
      simp only [read_hook_input]
      rw [hdet]
      simp [Option.bind_eq_bind, Option.some_bind, pyGet, hsha, hge]

/-- Witness for C4 in the scenario-6 shape: reentry flag set over an
otherwise blockable transcript, and separately a loop counter of 3. -/
theorem loop_guard_allows_unconditionally_witness :
    (pyTruthy (jGetD [("transcript_path", Json.str "t"),
        ("stop_hook_active", Json.bool true)] "stop_hook_active"
        (Json.bool false)) = true ∨
      ∃ n : Int, dictLookup [("transcript_path", Json.str "t"),
        ("stop_hook_active", Json.bool true)] "loop_count"
        = some (Json.num n) ∧ 3 ≤ n) ∧
    main (Stdin.value (Json.obj [("transcript_path", Json.str "t"),
      ("stop_hook_active", Json.bool true)])) fsBlockable = some HookResult.allow ∧
    main (Stdin.value (Json.obj [("transcript_path", Json.str "t"),
      ("loop_count", Json.num 3)])) fsBlockable = some HookResult.allow :=
  ⟨Or.inl (by decide),
   loop_guard_allows_unconditionally [("transcript_path", Json.str "t"),
      ("stop_hook_active", Json.bool true)] fsBlockable (Or.inl (by decide)),
   loop_guard_allows_unconditionally [("transcript_path", Json.str "t"),
      ("loop_count", Json.num 3)] fsBlockable
     (Or.inr ⟨3, rfl, by omega⟩)⟩

/-- The C2 counterexample record: its name-like field contains the
verification keyword and its payload is exactly "ALLOW", but it carries no
`type: "tool_result"` marker. -/
def nameOnlyScanRecord : Json :=
  Json.obj [("name", Json.str "scan_code"), ("content", Json.str "ALLOW")]

/-- C2 as stated is false on the code: this record's name-like field
contains the verification keyword and its payload contains the literal
token "ALLOW", yet the classifier reports no verification success, because
the name-substring strategy additionally requires `type == "tool_result"`. -/
theorem name_substring_with_allow_not_qualifying :
    strContains (pyStr (jGetD [("name", Json.str "scan_code"),
      ("content", Json.str "ALLOW")] "name" (Json.str ""))) SCAN_TOOL_KEYWORD = true ∧
    strContains (pyStr (jGetD [("name", Json.str "scan_code"),
      ("content", Json.str "ALLOW")] "content" (Json.str ""))) "ALLOW" = true ∧
    _analyze_entry nameOnlyScanRecord 0 = some (false, false) :=
  ⟨by decide, by decide, by decide⟩

/-- C2 amended: a record whose name-like field contains the verification
keyword qualifies as a verification success provided it is additionally
marked `type: "tool_result"` and its content payload contains "ALLOW":
whenever the classifier succeeds on such a record, it reports a
verification success. -/
theorem tool_result_name_substring_allow_qualifies
    (kvs : List (String × Json)) (c : String) (w a : Bool)
    (htype : isStrEq (jGetD kvs "type" Json.null) "tool_result" = true)
    (hname : strContains (pyStr (jGetD kvs "name" (Json.str "")))
      SCAN_TOOL_KEYWORD = true)
    (hcontent : jGetD kvs "content" (Json.str "") = Json.str c)
    (hallow : strContains c "ALLOW" = true)
    (hrun : _analyze_entry (Json.obj kvs) 0 = some (w, a)) :
    a = true := by
  have hscan : scanAllowCheck kvs = true := by
    simp [scanAllowCheck, htype, hname, hcontent, hallow]
  rw [show _analyze_entry (Json.obj kvs) 0
      = (do
          let w1 ← writeCheck1 kvs
          let w2 ← writeCheck2 kvs
          let nested ← nestedResults (analyzeEntryB 10) kvs
          some (w1 || w2 || nested.1, scanAllowCheck kvs || nested.2))
      from rfl] at hrun
  cases hw1 : writeCheck1 kvs with
  | none => rw [hw1] at hrun; simp at hrun
  | some w1 =>
    rw [hw1] at hrun
    cases hw2 : writeCheck2 kvs with
    | none => rw [hw2] at hrun; simp at hrun
    | some w2 =>
      rw [hw2] at hrun
      cases hn : nestedResults (analyzeEntryB 10) kvs with
      | none => rw [hn] at hrun; simp at hrun
      | some nested =>
        rw [hn] at hrun
        simp only [Option.bind_eq_bind, Option.some_bind, Option.some.injEq,
                   Prod.mk.injEq, hscan, Bool.true_or] at hrun
        exact hrun.2.symm

/-- Witness for the amended C2 on a namespaced scan-tool result. -/
theorem tool_result_name_substring_allow_qualifies_witness :
    isStrEq (jGetD [("type", Json.str "tool_result"),
      ("name", Json.str "plugin:acutis:mcp__acutis__scan_code"),
      ("content", Json.str "Verdict: ALLOW")] "type" Json.null) "tool_result" = true ∧
    strContains (pyStr (jGetD [("type", Json.str "tool_result"),
      ("name", Json.str "plugin:acutis:mcp__acutis__scan_code"),
      ("content", Json.str "Verdict: ALLOW")] "name" (Json.str "")))
      SCAN_TOOL_KEYWORD = true ∧
    _analyze_entry (Json.obj [("type", Json.str "tool_result"),
      ("name", Json.str "plugin:acutis:mcp__acutis__scan_code"),
      ("content", Json.str "Verdict: ALLOW")]) 0 = some (false, true) ∧
    true = true :=
  ⟨by decide, by decide, by decide,
   tool_result_name_substring_allow_qualifies
     [("type", Json.str "tool_result"),
      ("name", Json.str "plugin:acutis:mcp__acutis__scan_code"),
      ("content", Json.str "Verdict: ALLOW")]
     "Verdict: ALLOW" false true (by decide) (by decide) rfl (by decide) (by decide)⟩

/-- C3 (code bug): blank or undecodable stdin degrades to the empty record,
the environment defaults to Claude, and the hook allows; but stdin that
decodes to a well-formed JSON value that is not a record — here the number
5 — makes `detect_environment` raise an uncaught `TypeError` (`none`)
instead of allowing. -/
theorem empty_stdin_allows_nonrecord_stdin_crashes :
    read_hook_input Stdin.blank = Json.obj [] ∧
    read_hook_input Stdin.invalid = Json.obj [] ∧
    detect_environment (Json.obj []) = some Env.claude ∧
    main Stdin.blank (fun _ => none) = some HookResult.allow ∧
    main Stdin.invalid (fun _ => none) = some HookResult.allow ∧
    read_hook_input (Stdin.value (Json.num 5)) = Json.num 5 ∧
    main (Stdin.value (Json.num 5)) (fun _ => none) = none :=
  ⟨rfl, rfl, rfl, rfl, rfl, rfl, rfl⟩

end StopHook
